import Mathlib

/-!
Verification of the RFP/RFI response generation backend.

Shallow embedding of the Python sources under `backend/app/`:
strings are Lean `String`s (or `List Char` where character indexing
matters), Python `dict` records become structures with `Option` fields,
fallible external calls (LLM, embeddings, blob store, DB commit) are
modelled as `Except`/`Option`-valued parameters, and `while` loops become
fuel-indexed recursion.  Numeric scores use `Rat` (the Python code works
on IEEE floats; all constants involved are decimal and the claims under
study are exact at the inputs considered).
-/

namespace RFPGen

/-! ## Python string helpers -/

/-- Python's whitespace class: the characters for which `str.isspace()`
holds, which is exactly what `str.strip()` removes and what regex `\s`
matches on `str` patterns (CPython uses the same `Py_UNICODE_ISSPACE`
table for both): tab through carriage return, the C1 separators
FS/GS/RS/US (U+001C-U+001F), space, NEL (U+0085), NBSP (U+00A0), Ogham
space mark (U+1680), the U+2000-U+200A spaces, line/paragraph separator
(U+2028/U+2029), narrow NBSP (U+202F), medium mathematical space
(U+205F) and ideographic space (U+3000). -/
def pyWS (c : Char) : Bool :=
  c = ' ' || c = '\t' || c = '\n' || c = '\r' || c = '\x0b' || c = '\x0c'
  || ('\x1c' ≤ c && c ≤ '\x1f') || c = '\x85' || c = '\xa0'
  || c = '\u1680' || ('\u2000' ≤ c && c ≤ '\u200A')
  || c = '\u2028' || c = '\u2029' || c = '\u202F' || c = '\u205F'
  || c = '\u3000'

/-- Python `str.strip()` on a character list. -/
def pyStrip (l : List Char) : List Char :=
  ((l.dropWhile pyWS).reverse.dropWhile pyWS).reverse

/-- Python `str.lower()` (ASCII). -/
def pyLower (s : String) : String := String.mk (s.data.map Char.toLower)

/-- Python substring test `needle in hay` on character lists. -/
def listIn (needle hay : List Char) : Bool :=
  hay.tails.any (fun t => needle.isPrefixOf t)

/-- Python substring test `needle in hay` on strings. -/
def strIn (needle hay : String) : Bool := listIn needle.data hay.data

/-- Python `str(x)` for an optional string (`str(None) = "None"`). -/
def pyStr : Option String → String
  | none => "None"
  | some s => s

/-! ## `documents/classifier.py` -/

/-- `DOCUMENT_CATEGORIES` from `documents/classifier.py`. -/
def DOCUMENT_CATEGORIES : List String :=
  ["rfp_document", "commercial_terms", "tech_requirements",
   "pricing_sheet", "legal_appendix", "evaluation_criteria"]

/-- `_heuristic_classify` from `documents/classifier.py` (keyword fallback;
`tables_present` is accepted but never read by the source body). -/
def heuristic_classify (text filename : String) (_tables_present : Bool) : String :=
  let text_lower := pyLower text
  let filename_lower := pyLower filename
  if ["price", "pricing", "cost", "rate", "commercial"].any
      (fun w => strIn w filename_lower) then "pricing_sheet"
  else if ["legal", "contract", "terms", "nda", "compliance"].any
      (fun w => strIn w filename_lower) then "legal_appendix"
  else if ["eval", "criteria", "scoring", "weight"].any
      (fun w => strIn w filename_lower) then "evaluation_criteria"
  else if ["tech", "architecture", "integration", "spec"].any
      (fun w => strIn w filename_lower) then "tech_requirements"
  else if 2 ≤ (["unit price", "total cost", "license fee", "per user", "annual cost"].filter
      (fun kw => strIn kw text_lower)).length then "pricing_sheet"
  else if 2 ≤ (["indemnification", "liability", "termination", "governing law", "warranty"].filter
      (fun kw => strIn kw text_lower)).length then "legal_appendix"
  else if 2 ≤ (["evaluation criteria", "scoring", "weightage", "selection criteria"].filter
      (fun kw => strIn kw text_lower)).length then "evaluation_criteria"
  else if 3 ≤ (["api", "integration", "architecture", "database", "infrastructure"].filter
      (fun kw => strIn kw text_lower)).length then "tech_requirements"
  else "rfp_document"

/-- `classify_document` from `documents/classifier.py`.  The outcome of the
LLM call `ai.classify(...)` is passed in as an `Except` value; the `except`
branch of the source falls back to the keyword heuristic. -/
def classify_document (llm : Except String String)
    (text filename : String) (tables_present : Bool) : String :=
  match llm with
  | .ok result => result
  | .error _ => heuristic_classify text filename tables_present

/-! ## `responses/generator.py` -/

/-- The requirement dict fields read by `generate_responses_batch`. -/
structure GenReq where
  id : Option String
  req_number : Option String
  deriving DecidableEq, Repr

/-- A generated response record (relevant dict fields). -/
structure GenResp where
  requirement_id : Option String
  compliance_status : String
  response_text : String
  confidence_score : Rat
  is_ai_generated : Bool
  notes : Option String
  deriving DecidableEq, Repr

/-- The stub record built in the `except` branch of
`generate_responses_batch` (`notes = f"Error: {str(e)}"`). -/
def failureStub (req : GenReq) (e : String) : GenResp :=
  { requirement_id := req.id
    compliance_status := "custom_dev"
    response_text := "Response generation failed. Manual response required."
    confidence_score := 0
    is_ai_generated := true
    notes := some ("Error: " ++ e) }

/-- `generate_responses_batch` from `responses/generator.py`.  The inner
`generate_response` call (LLM + retrieval) is abstracted as the fallible
function `gen`; on success the source sets `resp["requirement_id"]`. -/
def generate_responses_batch (gen : GenReq → Except String GenResp) :
    List GenReq → List GenResp
  | [] => []
  | req :: rest =>
    (match gen req with
     | .ok resp => { resp with requirement_id := req.id }
     | .error e => failureStub req e) :: generate_responses_batch gen rest

/-! ## `responses/compliance_scorer.py` -/

/-- Requirement dict fields read by `calculate_compliance_scores`. -/
structure ScoredReq where
  id : Option String
  rtype : Option String
  deriving DecidableEq, Repr

/-- Response dict fields read by `calculate_compliance_scores`. -/
structure ScoredResp where
  requirement_id : Option String
  compliance_status : Option String
  deriving DecidableEq, Repr

/-- `status_weights.get(status)`: the explicit `None` for
`"not_applicable"` and a missing key both yield `none`. -/
def weightOfStatus (s : String) : Option Rat :=
  if s = "fully_compliant" then some 1
  else if s = "configurable" then some (4/5)
  else if s = "partially_compliant" then some (1/2)
  else if s = "custom_dev" then some (3/10)
  else none

/-- `resp_by_req = {str(r.get("requirement_id")): r for r in responses}`:
later list entries override earlier ones, so look up the last match. -/
def respByReq (responses : List ScoredResp) (key : String) : Option ScoredResp :=
  responses.reverse.find? (fun r => pyStr r.requirement_id = key)

/-- The `(type, weight)` pairs accumulated by the scoring loop, in
requirement order (the source groups them into `scores_by_type`). -/
def scoredPairs (requirements : List ScoredReq) (responses : List ScoredResp) :
    List (String × Rat) :=
  requirements.filterMap (fun req =>
    match respByReq responses (pyStr req.id) with
    | none => none
    | some resp =>
      match weightOfStatus (resp.compliance_status.getD "custom_dev") with
      | none => none
      | some w => some (req.rtype.getD "functional", w))

/-- Key list of the `scores_by_type` dict: first occurrence order. -/
def firstOccurrences : List (String × Rat) → List String :=
  fun l => l.foldl (fun acc p => if p.1 ∈ acc then acc else acc ++ [p.1]) []

/-- Weights collected for a given requirement type. -/
def typeWeights (pairs : List (String × Rat)) (t : String) : List Rat :=
  (pairs.filter (fun p => p.1 = t)).map (fun p => p.2)

/-- `(sum(weights)/len(weights)*100) if weights else 0`; this also renders
`type_scores.get(t, 0)`, since a type is absent from the dict exactly when
its weight list is empty. -/
def typeScore (pairs : List (String × Rat)) (t : String) : Rat :=
  let ws := typeWeights pairs t
  if ws.isEmpty then 0 else ws.sum / ws.length * 100

/-- `_count_statuses`: an insertion-ordered counting dict. -/
def bumpCount (acc : List (String × Nat)) (s : String) : List (String × Nat) :=
  if acc.any (fun p => p.1 = s) then
    acc.map (fun p => if p.1 = s then (p.1, p.2 + 1) else p)
  else acc ++ [(s, 1)]

/-- `_count_statuses` from `responses/compliance_scorer.py`
(`r.get("compliance_status", "unknown")`). -/
def countStatuses (responses : List ScoredResp) : List (String × Nat) :=
  responses.foldl (fun acc r => bumpCount acc (r.compliance_status.getD "unknown")) []

/-- Round half to even (Python's `round` on exact decimal values). -/
def roundHalfEven (q : Rat) : Int :=
  let f : Int := ⌊q⌋
  if q - f < 1/2 then f
  else if 1/2 < q - f then f + 1
  else if f % 2 = 0 then f else f + 1

/-- Python `round(x, 1)` modelled on exact rationals (the source rounds
IEEE floats; off decimal half-way points the two agree). -/
def pyRound1 (q : Rat) : Rat := (roundHalfEven (q * 10) : Rat) / 10

/-- The dict returned by `calculate_compliance_scores`; the early-return
branch for empty `responses` carries only the first three keys, so the
remaining keys are `Option`s. -/
structure ComplianceResult where
  overall_score : Rat
  functional_score : Rat
  non_functional_score : Rat
  commercial_score : Option Rat
  technical_score : Option Rat
  scores_by_type : Option (List (String × Rat))
  total_requirements : Option Nat
  total_responses : Option Nat
  status_breakdown : Option (List (String × Nat))
  deriving DecidableEq, Repr

/-- `calculate_compliance_scores` from `responses/compliance_scorer.py`. -/
def calculate_compliance_scores (requirements : List ScoredReq)
    (responses : List ScoredResp) : ComplianceResult :=
  if responses.isEmpty then
    ⟨0, 0, 0, none, none, none, none, none, none⟩
  else
    let pairs := scoredPairs requirements responses
    let allW := pairs.map (fun p => p.2)
    let overall : Rat := if allW.isEmpty then 0 else allW.sum / allW.length * 100
    { overall_score := pyRound1 overall
      functional_score := pyRound1 (typeScore pairs "functional")
      non_functional_score := pyRound1 (typeScore pairs "non_functional")
      commercial_score := some (pyRound1 (typeScore pairs "commercial"))
      technical_score := some (pyRound1 (typeScore pairs "technical"))
      scores_by_type :=
        some ((firstOccurrences pairs).map (fun t => (t, pyRound1 (typeScore pairs t))))
      total_requirements := some requirements.length
      total_responses := some responses.length
      status_breakdown := some (countStatuses responses) }

/-! ## Sheet selection in `orchestrator/pipeline.py`, `_run_excel_answering` -/

/-- One user hint matches one auto-detected sheet name: case-insensitive
equality or substring containment in either direction. -/
def sheetNameMatches (userName actual : String) : Bool :=
  let u := pyLower userName
  let a := pyLower actual
  u = a || strIn u a || strIn a u

/-- Lines 413-432 of `orchestrator/pipeline.py`: apply the user sheet-name
filter to the auto-detected sheets, falling back to all auto-detected
sheets when nothing matches. -/
def selectTargetSheets (autoDetected userSpecified : List String) : List String :=
  if userSpecified.isEmpty then autoDetected
  else
    let matched := autoDetected.filter
      (fun actual => userSpecified.any (fun u => sheetNameMatches u actual))
    if matched.isEmpty then autoDetected else matched

/-! ## `api/generate.py`, `generate_full` -/

/-- Project row fields read by the endpoint. -/
structure ProjectRec where
  id : Nat
  processing_status : Option String
  processing_message : Option String
  deriving DecidableEq, Repr

/-- Document row fields read by the endpoint's `select`. -/
structure DocRec where
  project_id : Nat
  doc_category : Option String
  deriving DecidableEq, Repr

/-- Endpoint outcome.  `HTTPException(404/409/400)` branches, plus the
success branch: the route decorator declares no `status_code`, so the
framework's default `200` applies to the returned JSON body. -/
inductive GenerateFullResult where
  | notFound404
  | conflict409
  | badRequest400
  | ok200 (body_processing_status : String)
  deriving DecidableEq, Repr

/-- `generate_full` from `api/generate.py` over an in-memory table of
projects and documents: looks the project up, returns 409 while
`processing_status == "processing"`, 400 when the project has no documents
at all (the `select` filters on `project_id` only), and otherwise flips
`processing_status` to `"processing"` and returns the success body. -/
def generate_full (projects : List ProjectRec) (docs : List DocRec)
    (project_id : Nat) : GenerateFullResult × List ProjectRec :=
  match projects.find? (fun p => p.id = project_id) with
  | none => (.notFound404, projects)
  | some p =>
    if p.processing_status = some "processing" then (.conflict409, projects)
    else if (docs.filter (fun d => d.project_id = project_id)).isEmpty then
      (.badRequest400, projects)
    else
      (.ok200 "processing",
       projects.map (fun q =>
         if q.id = project_id then
           { q with processing_status := some "processing"
                    processing_message := some "Generation queued..." }
         else q))

/-! ## `orchestrator/pipeline.py`, `_upload_outputs` and the tail of `run` -/

/-- An entry of `self.output_files`. -/
structure OutputFile where
  filename : String
  ftype : String
  category : String
  deriving DecidableEq, Repr

/-- The Document row created for one published artifact. -/
structure PubDoc where
  filename : String
  file_path : String
  file_type : String
  doc_category : String
  status : String
  deriving DecidableEq, Repr

/-- A SQLAlchemy session over the documents table: `committed` is the
persisted table, `staged` the rows added via `db.add` but not committed. -/
structure PubSession where
  committed : List PubDoc
  staged : List PubDoc
  deriving DecidableEq, Repr

/-- `db.add(doc)`. -/
def sessionAdd (s : PubSession) (d : PubDoc) : PubSession :=
  { s with staged := s.staged ++ [d] }

/-- `await db.commit()` (when the commit itself succeeds). -/
def sessionCommit (s : PubSession) : PubSession :=
  ⟨s.committed ++ s.staged, []⟩

/-- `await db.rollback()`. -/
def sessionRollback (s : PubSession) : PubSession :=
  { s with staged := [] }

/-- The Document row built inside the loop of `_upload_outputs`
(`doc_category = output.get("category", "generated_output")`, which is
always present on the entries the pipeline appends). -/
def mkPubDoc (o : OutputFile) (objectName : String) : PubDoc :=
  ⟨o.filename, objectName, o.ftype, o.category, "completed"⟩

/-- The `for output in self.output_files` loop of `_upload_outputs`:
skip missing files, upload each remaining file to the blob store (the
fallible `upload`), and stage a Document row.  No commit happens inside
the loop; the first raised exception aborts it. -/
def uploadLoop (upload : OutputFile → Except String Unit)
    (fileExists : OutputFile → Bool) (objName : OutputFile → String) :
    List OutputFile → PubSession → PubSession × Option String
  | [], s => (s, none)
  | o :: rest, s =>
    if fileExists o then
      match upload o with
      | .error e => (s, some e)
      | .ok _ => uploadLoop upload fileExists objName rest
          (sessionAdd s (mkPubDoc o (objName o)))
    else uploadLoop upload fileExists objName rest s

/-- `_upload_outputs`: run the loop in a fresh session over `db`, then
`await db.commit()` (whose own success is `commitOk`); any exception
triggers `await db.rollback()` and re-raises. -/
def upload_outputs (upload : OutputFile → Except String Unit)
    (fileExists : OutputFile → Bool) (objName : OutputFile → String)
    (commitOk : Bool) (outputs : List OutputFile) (db : List PubDoc) :
    PubSession × Option String :=
  match uploadLoop upload fileExists objName outputs ⟨db, []⟩ with
  | (s, some e) => (sessionRollback s, some e)
  | (s, none) =>
    if commitOk then (sessionCommit s, none)
    else (sessionRollback s, some "commit failed")

/-- Steps 6/9 of `GenerationPipeline.run` plus its `except` handler: a
successful `_upload_outputs` is followed by the `completed` status write;
an exception propagates to the handler, which writes `failed`. -/
def runPublication (upload : OutputFile → Except String Unit)
    (fileExists : OutputFile → Bool) (objName : OutputFile → String)
    (commitOk : Bool) (outputs : List OutputFile) (db : List PubDoc) :
    PubSession × String :=
  match upload_outputs upload fileExists objName commitOk outputs db with
  | (s, none) => (s, "completed")
  | (s, some _) => (s, "failed")

/-! ## `extraction/requirement_extractor.py` -/

/-- Requirement record fields that deduplication and numbering touch
(`req.get("type", "functional")`; `req_number` is written by the
numbering loop). -/
structure ReqRec where
  title : String
  description : String
  rtype : Option String
  req_number : Option String
  deriving DecidableEq, Repr

/-- `req.get("type", "functional")`. -/
def typeName (r : ReqRec) : String := r.rtype.getD "functional"

/-- One iteration of the inner `for j in range(i+1, n)` loop of
`_deduplicate_requirements`: drop `j` when it is still kept and its
similarity to `i` exceeds the threshold. -/
def dedupInner (sim : Nat → Nat → Rat) (i : Nat) (keep : List Bool)
    (js : List Nat) : List Bool :=
  js.foldl (fun k j =>
    if k.getD j false && decide (95/100 < sim i j) then k.set j false else k) keep

/-- One iteration of the outer `for i in range(n)` loop: `continue` when
record `i` is already dropped, else run the inner loop over `j > i`. -/
def dedupOuterStep (sim : Nat → Nat → Rat) (n : Nat) (keep : List Bool)
    (i : Nat) : List Bool :=
  if keep.getD i false then
    dedupInner sim i keep (List.range' (i + 1) (n - (i + 1)))
  else keep

/-- The nested keep-flag loops of `_deduplicate_requirements`:
`sim i j` abstracts `_cosine_similarity(embeddings[i], embeddings[j])`. -/
def dedupKeepFlags (sim : Nat → Nat → Rat) (n : Nat) : List Bool :=
  (List.range n).foldl (dedupOuterStep sim n) (List.replicate n true)

/-- `_deduplicate_requirements`: lists of length ≤ 1 pass through before
any embedding call; an embedding failure (`emb = none`, the `except`
branch) passes everything through; otherwise records are filtered by the
keep flags (`[req for req, k in zip(requirements, keep) if k]`). -/
def deduplicate_requirements (emb : Option (Nat → Nat → Rat))
    (reqs : List ReqRec) : List ReqRec :=
  if reqs.length ≤ 1 then reqs
  else
    match emb with
    | none => reqs
    | some sim =>
      let keep := dedupKeepFlags sim reqs.length
      ((reqs.zip keep).filter (fun p => p.2)).map (fun p => p.1)

/-- The greedy reference: indices of `[0, n)` kept in discovery order,
each new index kept iff every earlier kept index has similarity ≤ 0.95. -/
def keptIndices (sim : Nat → Nat → Rat) : Nat → List Nat
  | 0 => []
  | n + 1 =>
    let ks := keptIndices sim n
    ks ++ (if ks.all (fun i => decide (sim i n ≤ 95/100)) then [n] else [])

/-- `j` survives greedy deduplication. -/
def isKept (sim : Nat → Nat → Rat) (j : Nat) : Bool :=
  (keptIndices sim j).all (fun i => decide (sim i j ≤ 95/100))

/-- `prefixes.get(req_type, "REQ")` from `extract_requirements`. -/
def prefixOfType : String → String
  | "functional" => "FR"
  | "non_functional" => "NFR"
  | "commercial" => "CR"
  | "legal" => "LR"
  | "technical" => "TR"
  | _ => "REQ"

/-- Python `f"{n:03d}"` for a natural number. -/
def pad3 (n : Nat) : String :=
  let s := toString n
  if s.length < 3 then String.mk (List.replicate (3 - s.length) '0') ++ s else s

/-- The numbering loop of `extract_requirements`: walk the deduplicated
records, bump the per-type counter and write `req_number`.  The source
initialises the five known counters to 0 and `counters.get(req_type, 0)`
defaults every other type to 0, i.e. the all-zero counter map. -/
def assignNumbers : List ReqRec → (String → Nat) → List ReqRec
  | [], _ => []
  | r :: rest, counters =>
    let t := typeName r
    let c := counters t + 1
    { r with req_number := some (prefixOfType t ++ "-" ++ pad3 c) }
      :: assignNumbers rest (fun s => if s = t then c else counters s)

/-- The chunk results of the extraction loop: a failed chunk logs and is
skipped (`except ... continue`), successful chunks append in order. -/
def collectChunkResults (rs : List (Except String (List ReqRec))) : List ReqRec :=
  rs.foldl (fun acc r => match r with | .ok l => acc ++ l | .error _ => acc) []

/-- `extract_requirements` from `extraction/requirement_extractor.py`,
with the per-chunk LLM outcomes and the embedding outcome as parameters:
collect, early-return on nothing extracted, deduplicate, number. -/
def extract_requirements (rs : List (Except String (List ReqRec)))
    (emb : Option (Nat → Nat → Rat)) : List ReqRec :=
  let all := collectChunkResults rs
  if all.isEmpty then []
  else assignNumbers (deduplicate_requirements emb all) (fun _ => 0)

/-! ## `extraction/chunking.py`

Text is a `List Char` so that `start_char`/`end_char` index characters
exactly as Python string slicing does. -/

/-- A chunk dict `{text, start_char, end_char, chunk_index}`. -/
structure Chunk where
  text : List Char
  start_char : Nat
  end_char : Nat
  chunk_index : Nat
  deriving DecidableEq, Repr

/-- Python slice `t[s:e]` for `0 ≤ s ≤ e` (empty when `e ≤ s`). -/
def pySlice (l : List Char) (s e : Nat) : List Char := (l.drop s).take (e - s)

/-- `estimate_tokens`: `len(text) // 4` (floor division). -/
def estimate_tokens (l : List Char) : Nat := l.length / 4

/-- Length of the run of characters satisfying `p` at the head. -/
def countLeading (p : Char → Bool) (l : List Char) : Nat := (l.takeWhile p).length

/-- Largest `m ≤ n` with `p m`, scanning downward (regex backtracking). -/
def largestLE (p : Nat → Bool) : Nat → Option Nat
  | 0 => if p 0 then some 0 else none
  | n + 1 => if p (n + 1) then some (n + 1) else largestLE p n

/-- Alternative 1, `\n\s*\n` after the leading newline: greedy `\s*` of
`m` characters followed by another newline; match length `2 + m`. -/
def altPara (rest : List Char) : Option Nat :=
  let r := countLeading pyWS rest
  (largestLE (fun m => m ≤ r && rest.get? m = some '\n') r).map (fun m => 2 + m)

/-- Alternative 2, `\n#{1,6}\s`: greedy run of 1-6 `#` with backtracking
until a whitespace character follows; length `1 + k + 1`. -/
def altHeading (rest : List Char) : Option Nat :=
  let run := countLeading (fun c => c = '#') rest
  (largestLE (fun k => 1 ≤ k && k ≤ run &&
      (rest.get? k).elim false pyWS) (min run 6)).map (fun k => 1 + k + 1)

/-- Alternative 3, `\n\d+\.\s`: the digit run cannot backtrack past a
digit (a digit is never `.`), so only the full run can match. -/
def altNumbered (rest : List Char) : Option Nat :=
  let d := countLeading Char.isDigit rest
  if 1 ≤ d && rest.get? d = some '.' && (rest.get? (d + 1)).elim false pyWS then
    some (1 + d + 2)
  else none

/-- Alternative 4, `\n-{3,}`: greedy, no trailing constraint. -/
def altRule (rest : List Char) : Option Nat :=
  let h := countLeading (fun c => c = '-') rest
  if 3 ≤ h then some (1 + h) else none

/-- Alternative 5, `\nSection\s+\d`: the whitespace run cannot backtrack
past a whitespace character (which is never a digit). -/
def altSection (rest : List Char) : Option Nat :=
  if "Section".data.isPrefixOf rest then
    let rest2 := rest.drop 7
    let s := countLeading pyWS rest2
    if 1 ≤ s && (rest2.get? s).elim false Char.isDigit then
      some (1 + 7 + s + 1)
    else none
  else none

/-- Alternative 6, `\n[A-Z][A-Z\s]{5,}\n`: greedy `[A-Z\s]` run with
backtracking until a newline follows (at least 5 characters). -/
def altCaps (rest : List Char) : Option Nat :=
  match rest with
  | [] => none
  | c :: rest2 =>
    if 'A' ≤ c && c ≤ 'Z' then
      let u := countLeading (fun ch => ('A' ≤ ch && ch ≤ 'Z') || pyWS ch) rest2
      (largestLE (fun m => 5 ≤ m && m ≤ u && rest2.get? m = some '\n') u).map
        (fun m => 1 + 1 + m + 1)
    else none

/-- The boundary regex of `chunk_document` at one position: every
alternative requires a leading newline; Python tries the alternatives of
`|` left to right and the first success wins. -/
def boundaryMatch : List Char → Option Nat
  | '\n' :: rest =>
    (altPara rest).orElse (fun _ =>
    (altHeading rest).orElse (fun _ =>
    (altNumbered rest).orElse (fun _ =>
    (altRule rest).orElse (fun _ =>
    (altSection rest).orElse (fun _ =>
    altCaps rest)))))
  | _ => none

/-- `finditer`: scan left to right, record each match start, resume after
the matched text (all matches have positive length; the fuel bounds the
scan by the text length). -/
def scanBoundaries : Nat → List Char → Nat → List Nat
  | 0, _, _ => []
  | _, [], _ => []
  | fuel + 1, l@(_ :: rest), p =>
    match boundaryMatch l with
    | some mlen => p :: scanBoundaries fuel (l.drop (max mlen 1)) (p + max mlen 1)
    | none => scanBoundaries fuel rest (p + 1)

/-- `boundaries = [0] + [m.start() for m in finditer] + [len(text)]`. -/
def findBoundaries (tl : List Char) : List Nat :=
  0 :: (scanBoundaries (tl.length + 1) tl 0 ++ [tl.length])

/-- The boundary-snapping step: take the last boundary in
`(chunk_start, chunk_end]` (the fold keeps the final qualifying element)
and use it only when it lies past the half-way point. -/
def snapEnd (bs : List Nat) (s e0 mc : Nat) : Nat :=
  let best := bs.foldl (fun acc b => if s < b && b ≤ e0 then b else acc) s
  if s + mc / 2 < best then best else e0

/-- `chunk_end` of one loop iteration: `min(chunk_start + max_chars,
len(text))`, snapped back to a semantic boundary when one lies past the
half-way point (only while the chunk does not already reach the end). -/
def chunkEnd (tl : List Char) (mc : Nat) (bs : List Nat) (s : Nat) : Nat :=
  let e0 := min (s + mc) tl.length
  if e0 < tl.length then snapEnd bs s e0 mc else e0

/-- The `while chunk_start < len(text)` loop of `chunk_document`.  A
chunk is emitted when its stripped slice is non-empty; the cursor then
moves to `chunk_end - overlap_chars` and the loop breaks when either the
new cursor or `chunk_end` reaches the end of the text.  Recursion is by
explicit fuel; `text.length + 1` suffices for the parameter ranges the
theorems consider (with too-large overlaps the Python loop does not
terminate at all). -/
def chunkLoop (tl : List Char) (mc oc : Nat) (bs : List Nat) :
    Nat → Nat → Nat → List Chunk
  | 0, _, _ => []
  | fuel + 1, s, idx =>
    if s < tl.length then
      let e := chunkEnd tl mc bs s
      let ct := pyStrip (pySlice tl s e)
      if tl.length ≤ e - oc || tl.length ≤ e then
        (if ct.isEmpty then [] else [⟨ct, s, e, idx⟩])
      else
        (if ct.isEmpty then [] else [⟨ct, s, e, idx⟩])
          ++ chunkLoop tl mc oc bs fuel (e - oc)
              (if ct.isEmpty then idx else idx + 1)
    else []

/-- Python falsy-or defaulting: `max_tokens or settings.max_chunk_tokens`
treats both `None` and `0` as absent.  The config defaults are
`max_chunk_tokens = 4000`, `chunk_overlap_tokens = 200`. -/
def orDefault (x : Option Nat) (d : Nat) : Nat :=
  match x with
  | none => d
  | some 0 => d
  | some n => n

/-- `chunk_document` from `extraction/chunking.py`. -/
def chunk_document (tl : List Char) (max_tokens overlap_tokens : Option Nat) :
    List Chunk :=
  let maxT := orDefault max_tokens 4000
  let ovT := orDefault overlap_tokens 200
  if estimate_tokens tl ≤ maxT then
    [⟨tl, 0, tl.length, 0⟩]
  else
    chunkLoop tl (maxT * 4) (ovT * 4) (findBoundaries tl) (tl.length + 1) 0 0

/-! ## Concrete inputs used by witnesses and counterexamples -/

/-- Three requirements of type `functional` with string ids. -/
def c4Reqs : List ScoredReq :=
  [⟨some "1", some "functional"⟩, ⟨some "2", some "functional"⟩,
   ⟨some "3", some "functional"⟩]

/-- Matching responses: fully compliant, configurable, partially
compliant; the weight mean is 23/30. -/
def c4Resps : List ScoredResp :=
  [⟨some "1", some "fully_compliant"⟩, ⟨some "2", some "configurable"⟩,
   ⟨some "3", some "partially_compliant"⟩]

/-- A similarity matrix where only record 1 duplicates record 0. -/
def exSim : Nat → Nat → Rat := fun i j => if i = 0 ∧ j = 1 then 1 else 0

/-- Three extracted requirement records. -/
def exDedupReqs : List ReqRec :=
  [⟨"a", "", none, none⟩, ⟨"b", "", none, none⟩, ⟨"c", "", none, none⟩]

/-- One successful extraction chunk with two functional and one legal
requirement. -/
def c6Chunks : List (Except String (List ReqRec)) :=
  [.ok [⟨"a", "", some "functional", none⟩, ⟨"b", "", some "legal", none⟩,
        ⟨"c", "", some "functional", none⟩]]

/-- One pipeline output file. -/
def exOutput : OutputFile := ⟨"Win_Plan.docx", "docx", "generated_output"⟩

/-- A blob-store client whose upload always raises. -/
def exUploadFail : OutputFile → Except String Unit :=
  fun _ => .error "connection reset"

/-- Text of length 40 whose middle 16 characters are spaces: `12×'A'`,
`16×' '`, `12×'B'`. -/
def c3Text : List Char :=
  List.replicate 12 'A' ++ List.replicate 16 ' ' ++ List.replicate 12 'B'

/-- Six characters: floor(6/4) = 1 estimated token, ceil(6/4) = 2. -/
def c9Text : List Char := ['a', 'a', 'a', 'a', 'a', 'a']

/-! # Theorems -/

/-- C10: the keyword fallback `_heuristic_classify` is a deterministic
function of `(text, filename)` — the `tables_present` argument never
influences it — and always returns a member of the closed six-category
set; hence whenever the LLM classification path raises, `classify_document`
returns the heuristic's valid category instead of propagating the error. -/
theorem classify_document_fallback_total (e text filename : String)
    (tables_present : Bool) :
    classify_document (.error e) text filename tables_present
      = heuristic_classify text filename tables_present
    ∧ heuristic_classify text filename tables_present ∈ DOCUMENT_CATEGORIES
    ∧ (∀ b : Bool, heuristic_classify text filename b
        = heuristic_classify text filename tables_present) := by
  refine ⟨rfl, ?_, fun b => rfl⟩
  unfold heuristic_classify
  dsimp only
  repeat' split
  all_goals decide

/-- C7: `generate_responses_batch` returns exactly one response per input
requirement, in input order: the successful entries carry the generated
response with `requirement_id` set, and an entry whose `generate_response`
call raised is the `custom_dev` failure stub — no exception escapes and
later requirements are still processed. -/
theorem generate_responses_batch_spec (gen : GenReq → Except String GenResp)
    (reqs : List GenReq) :
    generate_responses_batch gen reqs
      = reqs.map (fun req =>
          match gen req with
          | .ok resp => { resp with requirement_id := req.id }
          | .error e => failureStub req e)
    ∧ (generate_responses_batch gen reqs).length = reqs.length := by
  have h : generate_responses_batch gen reqs
      = reqs.map (fun req =>
          match gen req with
          | .ok resp => { resp with requirement_id := req.id }
          | .error e => failureStub req e) := by
    induction reqs with
    | nil => rfl
    | cons r rest ih => simp only [generate_responses_batch, List.map_cons, ih]
  exact ⟨h, by rw [h, List.length_map]⟩

/-- C8: with non-empty auto-detected sheets and non-empty user hints, a
hint set matching nothing leaves all auto-detected sheets selected (never
the empty set), while any match restricts the selection to exactly the
matched auto-detected sheets. -/
theorem select_target_sheets_spec (auto user : List String)
    (ha : auto ≠ []) (hu : user ≠ []) :
    ((∀ a ∈ auto, ∀ u ∈ user, sheetNameMatches u a = false) →
      selectTargetSheets auto user = auto ∧ selectTargetSheets auto user ≠ [])
    ∧ ((∃ a ∈ auto, ∃ u ∈ user, sheetNameMatches u a = true) →
      selectTargetSheets auto user
        = auto.filter (fun a => user.any (fun u => sheetNameMatches u a))) := by
  have huE : user.isEmpty = false := by
    cases user with
    | nil => exact absurd rfl hu
    | cons x xs => rfl
  constructor
  · intro hno
    have hfil : auto.filter (fun a => user.any (fun u => sheetNameMatches u a)) = [] := by
      rw [List.filter_eq_nil_iff]
      intro a haMem
      simp only [Bool.not_eq_true, List.any_eq_false]
      intro u huMem
      exact hno a haMem u huMem
    constructor
    · simp [selectTargetSheets, huE, hfil]
    · simp [selectTargetSheets, huE, hfil]
      exact ha
  · rintro ⟨a, haMem, u, huMem, hm⟩
    have hmem : a ∈ auto.filter (fun a => user.any (fun u => sheetNameMatches u a)) := by
      rw [List.mem_filter]
      exact ⟨haMem, List.any_eq_true.mpr ⟨u, huMem, hm⟩⟩
    have hfil : (auto.filter (fun a => user.any (fun u => sheetNameMatches u a))).isEmpty = false := by
      cases hval : auto.filter (fun a => user.any (fun u => sheetNameMatches u a)) with
      | nil => rw [hval] at hmem; exact absurd hmem (List.not_mem_nil a)
      | cons y ys => rfl
    simp [selectTargetSheets, huE, hfil]

/-- C8 witness: the hint "pricing" matches no auto-detected sheet, so the
single auto-detected sheet is still processed. -/
theorem select_target_sheets_witness :
    selectTargetSheets ["D. Functional Requirements"] ["pricing"]
        = ["D. Functional Requirements"]
    ∧ selectTargetSheets ["D. Functional Requirements"] ["pricing"] ≠ [] :=
  (select_target_sheets_spec ["D. Functional Requirements"] ["pricing"]
    (by decide) (by decide)).1 (by decide)

/-- C1 counterexample: a project whose only document is a
`generated_output` has no non-generated documents, yet the endpoint
returns the success result (HTTP 200 body) rather than 400 — the
`select` filters on `project_id` only, and the route also has no
`status_code=202`. -/
theorem generate_full_counterexample :
    (([DocRec.mk 1 (some "generated_output")].filter
        (fun d => d.project_id == 1 && !(d.doc_category == some "generated_output"))) = [])
    ∧ (generate_full [ProjectRec.mk 1 none none]
        [DocRec.mk 1 (some "generated_output")] 1).1 = .ok200 "processing"
    ∧ (generate_full [ProjectRec.mk 1 none none]
        [DocRec.mk 1 (some "generated_output")] 1).1 ≠ .badRequest400 := by
  refine ⟨rfl, rfl, ?_⟩
  decide

/-- If the first project found under `pid` is `p`, mapping the
status-update over the table still finds the updated `p` first. -/
theorem find_map_status_update (ps : List ProjectRec) (pid : Nat)
    (p : ProjectRec) (f : ProjectRec → ProjectRec)
    (hid : ∀ q, (f q).id = q.id)
    (h : ps.find? (fun q => q.id = pid) = some p) :
    (ps.map (fun q => if q.id = pid then f q else q)).find?
        (fun q => q.id = pid) = some (f p) := by
  induction ps with
  | nil => simp at h
  | cons a l ih =>
    by_cases ha : a.id = pid
    · rw [List.find?_cons_of_pos _ (by simpa using ha)] at h
      injection h with h
      subst h
      simp only [List.map_cons, if_pos ha]
      exact List.find?_cons_of_pos _ (by simp [hid, ha])
    · rw [List.find?_cons_of_neg _ (by simpa using ha)] at h
      simp only [List.map_cons, if_neg ha]
      rw [List.find?_cons_of_neg _ (by simpa using ha)]
      exact ih h

/-- C1 amended: for a project found in the table, the endpoint returns
409 while `processing_status` is `"processing"`; 400 when the project has
no documents at all (of any category); and otherwise returns the success
result (HTTP 200, the framework default — the route sets no 202) and
flips the stored `processing_status` to `"processing"`. -/
theorem generate_full_spec (projects : List ProjectRec) (docs : List DocRec)
    (pid : Nat) (p : ProjectRec)
    (hp : projects.find? (fun q => q.id = pid) = some p) :
    (p.processing_status = some "processing" →
      generate_full projects docs pid = (.conflict409, projects))
    ∧ (p.processing_status ≠ some "processing" →
        (docs.filter (fun d => d.project_id = pid)) = [] →
        generate_full projects docs pid = (.badRequest400, projects))
    ∧ (p.processing_status ≠ some "processing" →
        (docs.filter (fun d => d.project_id = pid)) ≠ [] →
        (generate_full projects docs pid).1 = .ok200 "processing"
        ∧ (generate_full projects docs pid).2.find? (fun q => q.id = pid)
            = some { p with processing_status := some "processing",
                            processing_message := some "Generation queued..." }) := by
  refine ⟨?_, ?_, ?_⟩
  · intro hst
    simp [generate_full, hp, hst]
  · intro hst hdoc
    have : (docs.filter (fun d => d.project_id = pid)).isEmpty = true := by
      rw [hdoc]; rfl
    simp [generate_full, hp, hst, this]
  · intro hst hdoc
    have hne : (docs.filter (fun d => d.project_id = pid)).isEmpty = false := by
      cases hval : docs.filter (fun d => d.project_id = pid) with
      | nil => exact absurd hval hdoc
      | cons y ys => rfl
    constructor
    · simp [generate_full, hp, hst, hne]
    · simp only [generate_full, hp, hst, hne]
      simp only [if_neg (by simpa using hst), hne, Bool.false_eq_true, if_false]
      exact find_map_status_update projects pid p _ (fun q => rfl) hp

/-- C1 witness for the amended theorem: a project already `processing`
gets 409 and the table is unchanged. -/
theorem generate_full_witness :
    generate_full [ProjectRec.mk 2 (some "processing") none] [] 2
      = (.conflict409, [ProjectRec.mk 2 (some "processing") none]) :=
  (generate_full_spec [ProjectRec.mk 2 (some "processing") none] [] 2
    (ProjectRec.mk 2 (some "processing") none) (by decide)).1 (by decide)

/-- The upload loop never touches the committed table: rows are only
staged via `db.add`. -/
theorem uploadLoop_committed (up : OutputFile → Except String Unit)
    (fx : OutputFile → Bool) (objName : OutputFile → String) :
    ∀ (outputs : List OutputFile) (s : PubSession),
      (uploadLoop up fx objName outputs s).1.committed = s.committed := by
  intro outputs
  induction outputs with
  | nil => intro s; rfl
  | cons o rest ih =>
    intro s
    simp only [uploadLoop]
    by_cases hx : fx o
    · rw [if_pos hx]
      cases hup : up o with
      | error e => rfl
      | ok u => exact ih (sessionAdd s (mkPubDoc o (objName o)))
    · rw [if_neg hx]
      exact ih s

/-- If some existing output's upload raises, the loop ends in an error. -/
theorem uploadLoop_error (up : OutputFile → Except String Unit)
    (fx : OutputFile → Bool) (objName : OutputFile → String) :
    ∀ (outputs : List OutputFile) (s : PubSession),
      (∃ o ∈ outputs, fx o = true ∧ ∃ e, up o = .error e) →
      (uploadLoop up fx objName outputs s).2 ≠ none := by
  intro outputs
  induction outputs with
  | nil => rintro s ⟨o, ho, _⟩; exact absurd ho (List.not_mem_nil o)
  | cons o rest ih =>
    rintro s ⟨o2, ho2, hfx2, e2, hup2⟩
    simp only [uploadLoop]
    by_cases hx : fx o
    · rw [if_pos hx]
      cases hup : up o with
      | error e => simp
      | ok u =>
        rcases List.mem_cons.mp ho2 with rfl | hmem
        · rw [hup2] at hup; exact absurd hup (by simp)
        · exact ih _ ⟨o2, hmem, hfx2, e2, hup2⟩
    · rw [if_neg hx]
      rcases List.mem_cons.mp ho2 with rfl | hmem
      · rw [hfx2] at hx; exact absurd rfl hx
      · exact ih s ⟨o2, hmem, hfx2, e2, hup2⟩

/-- C2: publication is atomic — if any blob upload during the publication
step raises, or the closing commit fails, then no Document row staged by
that step reaches the committed table (the transaction rolls back to the
prior table), and the pipeline run ends with `processing_status =
"failed"`. -/
theorem publication_atomic (up : OutputFile → Except String Unit)
    (fx : OutputFile → Bool) (objName : OutputFile → String) (commitOk : Bool)
    (outputs : List OutputFile) (db : List PubDoc)
    (h : (∃ o ∈ outputs, fx o = true ∧ ∃ e, up o = .error e) ∨ commitOk = false) :
    (runPublication up fx objName commitOk outputs db).1.committed = db
    ∧ (runPublication up fx objName commitOk outputs db).2 = "failed" := by
  have hcom : (uploadLoop up fx objName outputs ⟨db, []⟩).1.committed = db :=
    uploadLoop_committed up fx objName outputs ⟨db, []⟩
  rcases hload : uploadLoop up fx objName outputs ⟨db, []⟩ with ⟨s, err⟩
  have hsc : s.committed = db := by rw [hload] at hcom; exact hcom
  cases err with
  | some e =>
    simp only [runPublication, upload_outputs, hload]
    exact ⟨hsc, trivial⟩
  | none =>
    rcases h with hfail | hcommit
    · have := uploadLoop_error up fx objName outputs ⟨db, []⟩ hfail
      rw [hload] at this
      exact absurd rfl this
    · subst hcommit
      simp only [runPublication, upload_outputs, hload, Bool.false_eq_true, if_false]
      exact ⟨hsc, trivial⟩

/-- C2 witness: a single output whose upload raises leaves the committed
table empty and the run failed. -/
theorem publication_atomic_witness :
    (runPublication exUploadFail (fun _ => true) (fun _ => "k") true
        [exOutput] []).1.committed = []
    ∧ (runPublication exUploadFail (fun _ => true) (fun _ => "k") true
        [exOutput] []).2 = "failed" :=
  publication_atomic exUploadFail (fun _ => true) (fun _ => "k") true
    [exOutput] []
    (Or.inl ⟨exOutput, by decide, rfl, "connection reset", rfl⟩)

/-- For non-empty responses, `overall_score` is the rounded mean of the
matched weights times 100. -/
theorem overall_score_eq (requirements : List ScoredReq)
    (responses : List ScoredResp) (hE : responses.isEmpty = false) :
    (calculate_compliance_scores requirements responses).overall_score
      = pyRound1 (if ((scoredPairs requirements responses).map (fun p => p.2)).isEmpty
          then 0
          else ((scoredPairs requirements responses).map (fun p => p.2)).sum
            / (((scoredPairs requirements responses).map (fun p => p.2)).length : Rat)
            * 100) := by
  simp only [calculate_compliance_scores, hE, Bool.false_eq_true, if_false]

/-- The matched weights of the three-response example. -/
theorem c4_pairs : scoredPairs c4Reqs c4Resps
    = [("functional", 1), ("functional", 4/5), ("functional", 1/2)] := by
  simp [scoredPairs, c4Reqs, c4Resps, respByReq, pyStr, weightOfStatus]

/-- Rounding 230/3 to one decimal gives 76.7. -/
theorem pyRound1_example : pyRound1 (230/3) = 767/10 := by
  have hf : (⌊(230/3 : Rat) * 10⌋ : Int) = 766 := by
    rw [show (230/3 : Rat) * 10 = 2300/3 by norm_num]
    rw [Int.floor_eq_iff]
    norm_num
  simp only [pyRound1, roundHalfEven, hf]
  norm_num

/-- C4 counterexample: with three scored responses of weights 1, 4/5 and
1/2 the weight mean times 100 is 230/3, but the returned `overall_score`
is the rounded 76.7 = 767/10 — `calculate_compliance_scores` rounds to
one decimal place, so it does not equal `mean(weight)*100`. -/
theorem compliance_scores_counterexample :
    (calculate_compliance_scores c4Reqs c4Resps).overall_score = 767/10
    ∧ ((scoredPairs c4Reqs c4Resps).map (fun p => p.2)).sum
        / (((scoredPairs c4Reqs c4Resps).map (fun p => p.2)).length : Rat) * 100
        = 230/3
    ∧ (767/10 : Rat) ≠ 230/3 := by
  have hmean : ((scoredPairs c4Reqs c4Resps).map (fun p => p.2)).sum
      / (((scoredPairs c4Reqs c4Resps).map (fun p => p.2)).length : Rat) * 100
      = 230/3 := by
    rw [c4_pairs]
    norm_num
  refine ⟨?_, hmean, by norm_num⟩
  rw [overall_score_eq c4Reqs c4Resps rfl, c4_pairs]
  norm_num [pyRound1_example]

/-- `roundHalfEven` never rounds below zero. -/
theorem roundHalfEven_nonneg {q : Rat} (h : 0 ≤ q) : 0 ≤ roundHalfEven q := by
  have hf : (0 : Int) ≤ ⌊q⌋ := Int.floor_nonneg.mpr h
  unfold roundHalfEven
  dsimp only
  split
  · exact hf
  · split
    · omega
    · split
      · exact hf
      · omega

/-- `roundHalfEven` never rounds above an integer bound. -/
theorem roundHalfEven_le {q : Rat} {B : Int} (h : q ≤ (B : Rat)) :
    roundHalfEven q ≤ B := by
  have hfB : ⌊q⌋ ≤ B := by
    calc ⌊q⌋ ≤ ⌊(B : Rat)⌋ := Int.floor_le_floor h
      _ = B := Int.floor_intCast B
  have hflt : (⌊q⌋ : Rat) ≤ q := Int.floor_le q
  unfold roundHalfEven
  dsimp only
  split
  · exact hfB
  · rename_i h1
    have hlt : (⌊q⌋ : Rat) < q := by
      by_contra hc
      push_neg at hc
      have : q = (⌊q⌋ : Rat) := le_antisymm hc hflt
      rw [this] at h1
      simp at h1
    have hQB : ⌊q⌋ < B := by
      have : (⌊q⌋ : Rat) < (B : Rat) := lt_of_lt_of_le hlt h
      exact_mod_cast this
    split
    · omega
    · split
      · exact hfB
      · omega

/-- Python `round(x, 1)` stays within `[0, 100]` on `[0, 100]`. -/
theorem pyRound1_bounds {q : Rat} (h0 : 0 ≤ q) (h1 : q ≤ 100) :
    0 ≤ pyRound1 q ∧ pyRound1 q ≤ 100 := by
  have hr0 : (0 : Int) ≤ roundHalfEven (q * 10) :=
    roundHalfEven_nonneg (by positivity)
  have hr1 : roundHalfEven (q * 10) ≤ (1000 : Int) := by
    apply roundHalfEven_le
    push_cast
    nlinarith
  constructor
  · unfold pyRound1
    positivity
  · unfold pyRound1
    rw [div_le_iff₀ (by norm_num : (0:Rat) < 10)]
    have hc : ((roundHalfEven (q * 10) : Int) : Rat) ≤ 1000 := by exact_mod_cast hr1
    linarith

/-- Every weight the scorer assigns lies in `[0, 1]`. -/
theorem weightOfStatus_bounds (s : String) (w : Rat)
    (h : weightOfStatus s = some w) : 0 ≤ w ∧ w ≤ 1 := by
  unfold weightOfStatus at h
  repeat' split at h
  all_goals first
    | exact Option.noConfusion h
    | (injection h with h2; subst h2; norm_num)

/-- Every weight in `scoredPairs` lies in `[0, 1]`. -/
theorem scoredPairs_bounds (requirements : List ScoredReq)
    (responses : List ScoredResp) :
    ∀ p ∈ scoredPairs requirements responses, 0 ≤ p.2 ∧ p.2 ≤ 1 := by
  intro p hp
  rcases List.mem_filterMap.mp hp with ⟨req, _, hf⟩
  split at hf
  · exact absurd hf (by simp)
  · split at hf
    · exact absurd hf (by simp)
    · rename_i resp _ w hw
      injection hf with hf
      subst hf
      exact weightOfStatus_bounds _ w hw

/-- The mean of a list of `[0, 1]` rationals lies in `[0, 1]`. -/
theorem mean_bounds (l : List Rat) (h : ∀ x ∈ l, 0 ≤ x ∧ x ≤ 1)
    (hne : l ≠ []) : 0 ≤ l.sum / (l.length : Rat)
      ∧ l.sum / (l.length : Rat) ≤ 1 := by
  have hlen : (0 : Rat) < (l.length : Rat) := by
    have : 0 < l.length := List.length_pos.mpr hne
    exact_mod_cast this
  have hsum0 : 0 ≤ l.sum := List.sum_nonneg (fun x hx => (h x hx).1)
  have hsum1 : l.sum ≤ (l.length : Rat) := by
    calc l.sum ≤ l.length • (1 : Rat) :=
          List.sum_le_card_nsmul l 1 (fun x hx => (h x hx).2)
      _ = (l.length : Rat) := by simp
  exact ⟨div_nonneg hsum0 hlen.le, (div_le_one hlen).mpr hsum1⟩

/-- C4 amended: for empty responses the scorer returns the three-key
all-zero dict; otherwise `overall_score` equals `round(mean(weight)*100,
1)` over the matched weights (the claim's exact weight table, with the
mean rounded to one decimal place), `status_breakdown` counts each
`compliance_status` verbatim over the given responses, and the overall
score always lies in `[0, 100]`. -/
theorem calculate_compliance_scores_spec (requirements : List ScoredReq)
    (responses : List ScoredResp) :
    (responses = [] →
      calculate_compliance_scores requirements responses
        = ⟨0, 0, 0, none, none, none, none, none, none⟩)
    ∧ (responses ≠ [] →
        (calculate_compliance_scores requirements responses).overall_score
          = pyRound1 (if ((scoredPairs requirements responses).map (fun p => p.2)).isEmpty
              then 0
              else ((scoredPairs requirements responses).map (fun p => p.2)).sum
                / (((scoredPairs requirements responses).map (fun p => p.2)).length : Rat)
                * 100)
        ∧ (calculate_compliance_scores requirements responses).status_breakdown
            = some (countStatuses responses)
        ∧ (calculate_compliance_scores requirements responses).total_responses
            = some responses.length)
    ∧ 0 ≤ (calculate_compliance_scores requirements responses).overall_score
    ∧ (calculate_compliance_scores requirements responses).overall_score ≤ 100 := by
  by_cases hresp : responses = []
  · subst hresp
    refine ⟨fun _ => rfl, fun hne => absurd rfl hne, ?_, ?_⟩
    · simp [calculate_compliance_scores]
    · simp [calculate_compliance_scores]
  · have hE : responses.isEmpty = false := by
      cases responses with
      | nil => exact absurd rfl hresp
      | cons x xs => rfl
    have hover := overall_score_eq requirements responses hE
    have hbounds :
        0 ≤ (calculate_compliance_scores requirements responses).overall_score
        ∧ (calculate_compliance_scores requirements responses).overall_score ≤ 100 := by
      rw [hover]
      set allW := (scoredPairs requirements responses).map (fun p => p.2) with hallW
      by_cases hW : allW.isEmpty
      · rw [if_pos hW]
        have hz : pyRound1 0 = 0 := by simp [pyRound1, roundHalfEven]
        rw [hz]
        norm_num
      · rw [if_neg hW]
        have hWne : allW ≠ [] := by
          cases hval : allW with
          | nil => rw [hval] at hW; exact absurd rfl hW
          | cons y ys => simp
        have hmem : ∀ x ∈ allW, 0 ≤ x ∧ x ≤ 1 := by
          intro x hx
          rcases List.mem_map.mp hx with ⟨p, hp, rfl⟩
          exact scoredPairs_bounds requirements responses p hp
        have hmean := mean_bounds allW hmem hWne
        exact pyRound1_bounds (by nlinarith [hmean.1, hmean.2])
          (by nlinarith [hmean.1, hmean.2])
    refine ⟨fun hc => absurd hc hresp, fun _ => ⟨hover, ?_, ?_⟩, hbounds.1, hbounds.2⟩
    · simp only [calculate_compliance_scores, hE, Bool.false_eq_true, if_false]
    · simp only [calculate_compliance_scores, hE, Bool.false_eq_true, if_false]

/-- C4 witness: the amended theorem evaluated at the three-response
example — the breakdown counts each status once. -/
theorem calculate_compliance_scores_witness :
    (calculate_compliance_scores c4Reqs c4Resps).status_breakdown
      = some (countStatuses c4Resps)
    ∧ countStatuses c4Resps
      = [("fully_compliant", 1), ("configurable", 1), ("partially_compliant", 1)] :=
  ⟨((calculate_compliance_scores_spec c4Reqs c4Resps).2.1 (by decide)).2.1,
   by decide⟩

/-- Writing `req_number` does not change a record's type. -/
theorem typeName_set_number (r : ReqRec) (x : Option String) :
    typeName { r with req_number := x } = typeName r := rfl

/-- The numbering loop writes, for each type `t`, the consecutive
numbers `counters t + 1, counters t + 2, ...` over the records of type
`t`, in list order. -/
theorem assignNumbers_filter_map (t : String) :
    ∀ (reqs : List ReqRec) (counters : String → Nat),
      ((assignNumbers reqs counters).filter (fun r => typeName r = t)).map
          (fun r => r.req_number)
        = (List.range' (counters t + 1) (reqs.countP (fun r => typeName r = t))).map
            (fun c => some (prefixOfType t ++ "-" ++ pad3 c)) := by
  intro reqs
  induction reqs with
  | nil => intro counters; simp [assignNumbers]
  | cons r rest ih =>
    intro counters
    by_cases ht : typeName r = t
    · subst ht
      simp only [assignNumbers]
      rw [List.filter_cons_of_pos (by simp [typeName]), List.map_cons,
        List.countP_cons_of_pos _ _ (by simp [typeName])]
      rw [ih]
      rw [show (if typeName r = typeName r then counters (typeName r) + 1
          else counters (typeName r)) = counters (typeName r) + 1 by simp]
      rw [List.range'_succ, List.map_cons]
    · simp only [assignNumbers]
      rw [List.filter_cons_of_neg (by simpa using ht),
        List.countP_cons_of_neg _ _ (by simpa using ht)]
      rw [ih]
      rw [if_neg (fun hcon => ht hcon.symm)]

/-- Numbering only renames: each output record has the type of some input
record. -/
theorem assignNumbers_mem :
    ∀ (reqs : List ReqRec) (counters : String → Nat) (r : ReqRec),
      r ∈ assignNumbers reqs counters → ∃ r0 ∈ reqs, typeName r = typeName r0 := by
  intro reqs
  induction reqs with
  | nil =>
    intro counters r h
    simp [assignNumbers] at h
  | cons a rest ih =>
    intro counters r h
    simp only [assignNumbers, List.mem_cons] at h
    rcases h with rfl | h
    · exact ⟨a, List.mem_cons_self a rest, rfl⟩
    · rcases ih _ r h with ⟨r0, h0, hty⟩
      exact ⟨r0, List.mem_cons_of_mem a h0, hty⟩

/-- Numbering preserves the per-type record count. -/
theorem assignNumbers_countP (t : String) :
    ∀ (reqs : List ReqRec) (counters : String → Nat),
      (assignNumbers reqs counters).countP (fun r => typeName r = t)
        = reqs.countP (fun r => typeName r = t) := by
  intro reqs
  induction reqs with
  | nil => intro counters; rfl
  | cons r rest ih =>
    intro counters
    simp only [assignNumbers, List.countP_cons]
    rw [ih]
    rfl

/-- Deduplication returns a sublist of its input. -/
theorem dedup_subset (emb : Option (Nat → Nat → Rat)) (reqs : List ReqRec) :
    ∀ r ∈ deduplicate_requirements emb reqs, r ∈ reqs := by
  intro r h
  unfold deduplicate_requirements at h
  split at h
  · exact h
  · split at h
    · exact h
    · rcases List.mem_map.mp h with ⟨p, hp, rfl⟩
      exact (List.of_mem_zip (List.mem_filter.mp hp).1).1

/-- C6: every requirement returned by `extract_requirements` carries a
`req_number` of the form `<prefix>-NNN`, where the prefix is FR/NFR/CR/
LR/TR according to its type, and per type the assigned sequence numbers
are exactly `1..N` in discovery order. -/
theorem extract_requirements_numbering (rs : List (Except String (List ReqRec)))
    (emb : Option (Nat → Nat → Rat))
    (h5 : ∀ r ∈ collectChunkResults rs,
        typeName r ∈ ["functional", "non_functional", "commercial", "legal",
          "technical"]) :
    (prefixOfType "functional" = "FR" ∧ prefixOfType "non_functional" = "NFR"
      ∧ prefixOfType "commercial" = "CR" ∧ prefixOfType "legal" = "LR"
      ∧ prefixOfType "technical" = "TR")
    ∧ (∀ t : String,
        (((extract_requirements rs emb).filter (fun r => typeName r = t)).map
            (fun r => r.req_number))
          = (List.range' 1
                ((extract_requirements rs emb).countP (fun r => typeName r = t))).map
              (fun c => some (prefixOfType t ++ "-" ++ pad3 c)))
    ∧ (∀ r ∈ extract_requirements rs emb, ∃ c : Nat, 1 ≤ c
        ∧ r.req_number = some (prefixOfType (typeName r) ++ "-" ++ pad3 c)
        ∧ prefixOfType (typeName r) ∈ ["FR", "NFR", "CR", "LR", "TR"]) := by
  have hout : extract_requirements rs emb
      = (if (collectChunkResults rs).isEmpty then []
         else assignNumbers (deduplicate_requirements emb (collectChunkResults rs))
           (fun _ => 0)) := rfl
  by_cases hA : (collectChunkResults rs).isEmpty
  · refine ⟨⟨rfl, rfl, rfl, rfl, rfl⟩, ?_, ?_⟩
    · intro t
      rw [hout, if_pos hA]
      simp
    · intro r hr
      rw [hout, if_pos hA] at hr
      simp at hr
  · have hform : ∀ t : String,
        (((extract_requirements rs emb).filter (fun r => typeName r = t)).map
            (fun r => r.req_number))
          = (List.range' 1
                ((extract_requirements rs emb).countP (fun r => typeName r = t))).map
              (fun c => some (prefixOfType t ++ "-" ++ pad3 c)) := by
      intro t
      rw [hout, if_neg hA]
      rw [assignNumbers_countP, assignNumbers_filter_map]
    refine ⟨⟨rfl, rfl, rfl, rfl, rfl⟩, hform, ?_⟩
    intro r hr
    have hex : ∃ c : Nat, 1 ≤ c
        ∧ r.req_number = some (prefixOfType (typeName r) ++ "-" ++ pad3 c) := by
      have hmem1 : r ∈ (extract_requirements rs emb).filter
          (fun q => typeName q = typeName r) :=
        List.mem_filter.mpr ⟨hr, by simp⟩
      have hmem2 : r.req_number ∈ ((extract_requirements rs emb).filter
          (fun q => typeName q = typeName r)).map (fun q => q.req_number) :=
        List.mem_map_of_mem _ hmem1
      rw [hform (typeName r)] at hmem2
      rcases List.mem_map.mp hmem2 with ⟨c, hc, hceq⟩
      exact ⟨c, (List.mem_range'_1.mp hc).1, hceq.symm⟩
    rcases hex with ⟨c, hc1, hc2⟩
    refine ⟨c, hc1, hc2, ?_⟩
    have hr0 : ∃ r0 ∈ collectChunkResults rs, typeName r = typeName r0 := by
      rw [hout, if_neg hA] at hr
      rcases assignNumbers_mem _ _ r hr with ⟨r1, h1, hty1⟩
      exact ⟨r1, dedup_subset emb _ r1 h1, hty1⟩
    rcases hr0 with ⟨r0, h0, hty0⟩
    have hfive := h5 r0 h0
    rw [← hty0] at hfive
    simp at hfive
    rcases hfive with h | h | h | h | h <;> rw [h] <;> decide

/-- C6 witness: the three-record example receives FR-001, LR-001, FR-002. -/
theorem extract_requirements_numbering_witness :
    (((extract_requirements c6Chunks none).filter
        (fun r => typeName r = "functional")).map (fun r => r.req_number))
      = (List.range' 1
            ((extract_requirements c6Chunks none).countP
              (fun r => typeName r = "functional"))).map
          (fun c => some (prefixOfType "functional" ++ "-" ++ pad3 c))
    ∧ ((extract_requirements c6Chunks none).map (fun r => r.req_number))
      = [some "FR-001", some "LR-001", some "FR-002"] :=
  ⟨(extract_requirements_numbering c6Chunks none (by decide)).2.1 "functional",
   by decide⟩

/-- `!(θ < x)` is `x ≤ θ` as booleans. -/
theorem boolNotLt (a b : Rat) : (!decide (a < b)) = decide (b ≤ a) := by
  rw [← decide_not]
  congr 1
  exact propext not_lt

/-- `getD` after `set` at a different index. -/
theorem getD_set_ne (l : List Bool) : ∀ (i j : Nat) (b : Bool), i ≠ j →
    (l.set i b).getD j false = l.getD j false := by
  induction l with
  | nil => intro i j b _; rfl
  | cons a t ih =>
    intro i j b h
    cases i with
    | zero =>
      cases j with
      | zero => exact absurd rfl h
      | succ j2 => rfl
    | succ i2 =>
      cases j with
      | zero => rfl
      | succ j2 => exact ih i2 j2 b (fun hc => h (by rw [hc]))

/-- `getD` after `set` at the same in-range index. -/
theorem getD_set_self (l : List Bool) : ∀ (j : Nat) (b : Bool), j < l.length →
    (l.set j b).getD j false = b := by
  induction l with
  | nil => intro j b h; exact absurd h (by simp)
  | cons a t ih =>
    intro j b h
    cases j with
    | zero => rfl
    | succ j2 => exact ih j2 b (by simpa using h)

/-- `getD` on `replicate n true` within range. -/
theorem getD_replicate_true : ∀ (n j : Nat), j < n →
    (List.replicate n true).getD j false = true := by
  intro n
  induction n with
  | zero => intro j h; omega
  | succ m ih =>
    intro j h
    cases j with
    | zero => rfl
    | succ j2 => exact ih j2 (by omega)

/-- Unfolding the inner loop by one step. -/
theorem dedupInner_cons (sim : Nat → Nat → Rat) (i j2 : Nat) (keep : List Bool)
    (rest : List Nat) :
    dedupInner sim i keep (j2 :: rest)
      = dedupInner sim i
          (if keep.getD j2 false && decide (95/100 < sim i j2)
           then keep.set j2 false else keep) rest := rfl

/-- The inner loop leaves indices outside its range untouched. -/
theorem dedupInner_getD_not_mem (sim : Nat → Nat → Rat) (i : Nat) :
    ∀ (js : List Nat) (keep : List Bool) (j : Nat), j ∉ js →
      (dedupInner sim i keep js).getD j false = keep.getD j false := by
  intro js
  induction js with
  | nil => intro keep j _; rfl
  | cons j2 rest ih =>
    intro keep j h
    have hne : j ≠ j2 := fun hc => h (hc ▸ List.mem_cons_self j2 rest)
    rw [dedupInner_cons]
    rw [ih _ j (fun hc => h (List.mem_cons_of_mem _ hc))]
    by_cases hc : keep.getD j2 false && decide (95/100 < sim i j2)
    · rw [if_pos hc, getD_set_ne _ _ _ _ (fun hcc => hne hcc.symm)]
    · rw [if_neg hc]

/-- Pointwise effect of the inner loop over a duplicate-free index range:
index `j` in the range is cleared exactly when it was kept and its
similarity to `i` exceeds the threshold. -/
theorem dedupInner_getD (sim : Nat → Nat → Rat) (i : Nat) :
    ∀ (js : List Nat), js.Nodup → ∀ (keep : List Bool) (j : Nat),
      (dedupInner sim i keep js).getD j false
        = if j ∈ js
          then keep.getD j false && !decide (95/100 < sim i j)
          else keep.getD j false := by
  intro js
  induction js with
  | nil => intro _ keep j; simp [dedupInner]
  | cons j2 rest ih =>
    intro hnd keep j
    rcases List.nodup_cons.mp hnd with ⟨hj2, hrest⟩
    rw [dedupInner_cons]
    by_cases hj : j = j2
    · subst hj
      rw [dedupInner_getD_not_mem sim i rest _ j hj2,
        if_pos (List.mem_cons_self j rest)]
      by_cases hc : keep.getD j false && decide (95/100 < sim i j)
      · rw [if_pos hc]
        have hpair := hc
        simp only [Bool.and_eq_true] at hpair
        obtain ⟨hkt, hdt⟩ := hpair
        have hlt : j < keep.length := by
          by_contra hge
          push_neg at hge
          have hfalse : keep.getD j false = false := by
            rw [List.getD_eq_default]
            omega
          rw [hfalse] at hkt
          exact Bool.noConfusion hkt
        rw [getD_set_self keep j false hlt, hkt, hdt]
        rfl
      · rw [if_neg hc]
        cases hk : keep.getD j false
        · rfl
        · have hd : decide (95/100 < sim i j) = false := by
            cases hd2 : decide (95/100 < sim i j)
            · rfl
            · exact absurd (by rw [hk, hd2]; rfl) hc
          rw [hd]
          rfl
    · have hstep : (if keep.getD j2 false && decide (95/100 < sim i j2)
          then keep.set j2 false else keep).getD j false = keep.getD j false := by
        by_cases hc : keep.getD j2 false && decide (95/100 < sim i j2)
        · rw [if_pos hc, getD_set_ne _ _ _ _ (fun hcc => hj hcc.symm)]
        · rw [if_neg hc]
      rw [ih hrest _ j, hstep]
      by_cases hm : j ∈ rest
      · rw [if_pos hm, if_pos (List.mem_cons_of_mem j2 hm)]
      · rw [if_neg hm, if_neg (by simp [hj, hm])]

/-- The inner loop preserves the keep-array length. -/
theorem dedupInner_length (sim : Nat → Nat → Rat) (i : Nat) :
    ∀ (js : List Nat) (keep : List Bool),
      (dedupInner sim i keep js).length = keep.length := by
  intro js
  induction js with
  | nil => intro keep; rfl
  | cons j2 rest ih =>
    intro keep
    rw [dedupInner_cons, ih]
    split
    · exact List.length_set keep j2 false
    · rfl

/-- The keep array keeps length `n`. -/
theorem dedupKeepFlags_length (sim : Nat → Nat → Rat) (n : Nat) :
    (dedupKeepFlags sim n).length = n := by
  unfold dedupKeepFlags
  have hfold : ∀ (L : List Nat) (init : List Bool),
      (L.foldl (dedupOuterStep sim n) init).length = init.length := by
    intro L
    induction L with
    | nil => intro init; rfl
    | cons a rest ih =>
      intro init
      rw [List.foldl_cons, ih]
      unfold dedupOuterStep
      split
      · exact dedupInner_length sim a _ init
      · rfl
  rw [hfold, List.length_replicate]

/-- The greedy kept set is the `isKept` filter of `[0, n)`. -/
theorem keptIndices_eq_filter (sim : Nat → Nat → Rat) :
    ∀ n, keptIndices sim n = (List.range n).filter (fun j => isKept sim j) := by
  intro n
  induction n with
  | zero => rfl
  | succ m ih =>
    rw [List.range_succ, List.filter_append]
    simp only [keptIndices]
    rw [show ((keptIndices sim m).all fun i => decide (sim i m ≤ 95/100))
        = isKept sim m from rfl]
    rw [ih]
    congr 1
    cases h : isKept sim m
    · simp [h]
    · simp [h]

/-- Membership in the greedy kept set. -/
theorem mem_keptIndices (sim : Nat → Nat → Rat) (i n : Nat) :
    i ∈ keptIndices sim n ↔ isKept sim i = true ∧ i < n := by
  rw [keptIndices_eq_filter, List.mem_filter, List.mem_range]
  exact ⟨fun h => ⟨h.2, h.1⟩, fun h => ⟨h.2, h.1⟩⟩

/-- Invariant of the outer loop: after `m` outer iterations, flag `j`
records whether every already-processed greedily-kept index (below
`min m j`) has similarity ≤ 0.95 to `j`. -/
theorem dedupFold_invariant (sim : Nat → Nat → Rat) (n : Nat) :
    ∀ (m : Nat), m ≤ n → ∀ (j : Nat), j < n →
      ((List.range m).foldl (dedupOuterStep sim n) (List.replicate n true)).getD j false
        = (keptIndices sim (min m j)).all (fun i => decide (sim i j ≤ 95/100)) := by
  intro m
  induction m with
  | zero =>
    intro _ j hj
    simp only [List.range_zero, List.foldl_nil]
    rw [getD_replicate_true n j hj]
    simp [keptIndices]
  | succ m ih =>
    intro hm j hj
    have hm' : m ≤ n := by omega
    rw [List.range_succ, List.foldl_append, List.foldl_cons, List.foldl_nil]
    set K := (List.range m).foldl (dedupOuterStep sim n) (List.replicate n true)
      with hKdef
    have hKm : K.getD m false = isKept sim m := by
      rw [ih hm' m (by omega), Nat.min_self]
      rfl
    have hKj := ih hm' j hj
    rw [show dedupOuterStep sim n K m
        = (if K.getD m false = true
           then dedupInner sim m K (List.range' (m + 1) (n - (m + 1)))
           else K) from rfl]
    rw [hKm]
    by_cases hkept : isKept sim m = true
    · rw [hkept, if_pos rfl]
      rw [dedupInner_getD sim m _ (List.nodup_range' _ _) _ j]
      by_cases hjm : m < j
      · have hmem : j ∈ List.range' (m + 1) (n - (m + 1)) := by
          rw [List.mem_range'_1]
          omega
        rw [if_pos hmem, hKj]
        rw [show min m j = m by omega, show min (m + 1) j = m + 1 by omega]
        have hk1 : keptIndices sim (m + 1) = keptIndices sim m ++ [m] := by
          simp only [keptIndices]
          rw [show ((keptIndices sim m).all fun i => decide (sim i m ≤ 95/100))
              = isKept sim m from rfl, hkept]
          simp
        rw [hk1, List.all_append]
        simp only [List.all_cons, List.all_nil, Bool.and_true]
        rw [boolNotLt]
      · have hnotmem : j ∉ List.range' (m + 1) (n - (m + 1)) := by
          rw [List.mem_range'_1]
          omega
        rw [if_neg hnotmem, hKj]
        rw [show min (m + 1) j = min m j by omega]
    · have hkf : isKept sim m = false := by
        cases h2 : isKept sim m
        · rfl
        · exact absurd h2 hkept
      rw [hkf]
      simp only [Bool.false_eq_true, if_false]
      rw [hKj]
      by_cases hjm : m < j
      · rw [show min m j = m by omega, show min (m + 1) j = m + 1 by omega]
        have hk1 : keptIndices sim (m + 1) = keptIndices sim m := by
          simp only [keptIndices]
          rw [show ((keptIndices sim m).all fun i => decide (sim i m ≤ 95/100))
              = isKept sim m from rfl, hkf]
          simp
        rw [hk1]
      · rw [show min (m + 1) j = min m j by omega]

/-- `[req for req, k in zip(reqs, keep) if k]` is the `getD`-filter of
the index range. -/
theorem zip_filter_map (reqs : List ReqRec) :
    ∀ (keep : List Bool), keep.length = reqs.length →
      ((reqs.zip keep).filter (fun p => p.2)).map (fun p => p.1)
        = ((List.range reqs.length).filter (fun j => keep.getD j false)).filterMap
            (fun j => reqs.get? j) := by
  induction reqs with
  | nil => intro keep _; simp
  | cons a l ih =>
    intro keep hlen
    cases keep with
    | nil => exact absurd hlen (by simp)
    | cons b k =>
      have hlen2 : k.length = l.length := by simpa using hlen
      have hih := ih k hlen2
      cases b with
      | false =>
        simp only [List.zip_cons_cons, List.filter_cons, List.length_cons,
          List.range_succ_eq_map, List.getD_cons_zero, List.getD_cons_succ,
          Bool.false_eq_true, if_false, List.filter_map, List.filterMap_map,
          Function.comp, List.get?_cons_succ]
        exact hih
      | true =>
        simp only [List.zip_cons_cons, List.filter_cons, List.length_cons,
          List.range_succ_eq_map, List.getD_cons_zero, List.getD_cons_succ,
          if_true, List.filter_map, List.filterMap_map, List.filterMap_cons,
          Function.comp, List.get?_cons_succ, List.get?_cons_zero, List.map_cons]
        simp [Function.comp_def, hih]

/-- C5: with successfully computed embeddings, `_deduplicate_requirements`
returns exactly the greedy-kept subsequence — in discovery order, record
`j` is kept iff no earlier kept record has similarity exceeding 0.95 to
it — and on embedding failure all records pass through unchanged. -/
theorem deduplicate_requirements_spec (sim : Nat → Nat → Rat)
    (reqs : List ReqRec) :
    deduplicate_requirements (some sim) reqs
      = (keptIndices sim reqs.length).filterMap (fun j => reqs.get? j)
    ∧ (∀ j, j < reqs.length →
        (j ∈ keptIndices sim reqs.length
          ↔ ∀ i ∈ keptIndices sim reqs.length, i < j → sim i j ≤ 95/100))
    ∧ (∀ l : List ReqRec, deduplicate_requirements none l = l) := by
  refine ⟨?_, ?_, ?_⟩
  · match reqs with
    | [] => rfl
    | [a] => rfl
    | a :: b :: rest =>
      unfold deduplicate_requirements
      rw [if_neg (by simp only [List.length_cons]; omega)]
      show ((((a :: b :: rest).zip
          (dedupKeepFlags sim (a :: b :: rest).length)).filter
            (fun p => p.2)).map (fun p => p.1)) = _
      rw [zip_filter_map _ _ (dedupKeepFlags_length sim _)]
      rw [keptIndices_eq_filter]
      congr 1
      apply List.filter_congr
      intro j hj
      rw [List.mem_range] at hj
      have hinv := dedupFold_invariant sim ((a :: b :: rest).length)
        ((a :: b :: rest).length) le_rfl j hj
      rw [show min (a :: b :: rest).length j = j by omega] at hinv
      rw [show dedupKeepFlags sim (a :: b :: rest).length
          = (List.range (a :: b :: rest).length).foldl
              (dedupOuterStep sim (a :: b :: rest).length)
              (List.replicate (a :: b :: rest).length true) from rfl]
      rw [hinv]
      rfl
  · intro j hj
    rw [mem_keptIndices]
    constructor
    · rintro ⟨hk, _⟩ i hi hij
      rcases (mem_keptIndices sim i reqs.length).mp hi with ⟨hki, _⟩
      have hi2 : i ∈ keptIndices sim j := (mem_keptIndices sim i j).mpr ⟨hki, hij⟩
      have := List.all_eq_true.mp hk i hi2
      exact of_decide_eq_true this
    · intro hall
      refine ⟨?_, hj⟩
      unfold isKept
      rw [List.all_eq_true]
      intro i hi
      rcases (mem_keptIndices sim i j).mp hi with ⟨hki, hij⟩
      have hin : i ∈ keptIndices sim reqs.length :=
        (mem_keptIndices sim i reqs.length).mpr ⟨hki, by omega⟩
      exact decide_eq_true (hall i hin hij)
  · intro l
    unfold deduplicate_requirements
    split
    · rfl
    · rfl

/-- C5 witness: the example where record 1 duplicates record 0 — records
0 and 2 are kept, and index 0 satisfies the kept characterisation. -/
theorem deduplicate_requirements_witness :
    deduplicate_requirements (some exSim) exDedupReqs
      = (keptIndices exSim exDedupReqs.length).filterMap
          (fun j => exDedupReqs.get? j)
    ∧ (0 ∈ keptIndices exSim exDedupReqs.length
        ↔ ∀ i ∈ keptIndices exSim exDedupReqs.length, i < 0 → exSim i 0 ≤ 95/100) :=
  ⟨(deduplicate_requirements_spec exSim exDedupReqs).1,
   (deduplicate_requirements_spec exSim exDedupReqs).2.1 0 (by decide)⟩

/-- The boundary-candidate fold never exceeds `e0`. -/
theorem snap_foldl_le (s e0 : Nat) (bs : List Nat) :
    ∀ init, init ≤ e0 →
      bs.foldl (fun acc b => if s < b && b ≤ e0 then b else acc) init ≤ e0 := by
  induction bs with
  | nil => intro init h; exact h
  | cons b rest ih =>
    intro init h
    rw [List.foldl_cons]
    by_cases hb : (s < b && b ≤ e0) = true
    · refine ih _ ?_
      rw [if_pos hb]
      simp only [Bool.and_eq_true, decide_eq_true_eq] at hb
      exact hb.2
    · exact ih _ (by rw [if_neg hb]; exact h)

/-- Snapping never moves the end past `e0`. -/
theorem snapEnd_le (bs : List Nat) (s e0 mc : Nat) (h : s ≤ e0) :
    snapEnd bs s e0 mc ≤ e0 := by
  unfold snapEnd
  dsimp only
  split
  · exact snap_foldl_le s e0 bs s h
  · exact le_rfl

/-- Either no snap happens, or the snapped end lies past the half-way
point. -/
theorem snapEnd_cases (bs : List Nat) (s e0 mc : Nat) :
    snapEnd bs s e0 mc = e0 ∨ s + mc / 2 < snapEnd bs s e0 mc := by
  unfold snapEnd
  dsimp only
  split
  · right
    assumption
  · left
    rfl

/-- Basic facts about one iteration's `chunk_end`. -/
theorem chunkEnd_facts (tl : List Char) (mc : Nat) (bs : List Nat) (s : Nat)
    (hmc : 4 ≤ mc) (hs : s < tl.length) :
    s < chunkEnd tl mc bs s ∧ chunkEnd tl mc bs s ≤ tl.length
    ∧ chunkEnd tl mc bs s ≤ s + mc
    ∧ (chunkEnd tl mc bs s < tl.length → s + mc / 2 < chunkEnd tl mc bs s) := by
  unfold chunkEnd
  dsimp only
  by_cases he0 : min (s + mc) tl.length < tl.length
  · rw [if_pos he0]
    have hmin : min (s + mc) tl.length = s + mc := by omega
    have hse0 : s ≤ min (s + mc) tl.length := by omega
    have hle : snapEnd bs s (min (s + mc) tl.length) mc ≤ min (s + mc) tl.length :=
      snapEnd_le bs s _ mc hse0
    rcases snapEnd_cases bs s (min (s + mc) tl.length) mc with hc | hc
    · rw [hc]
      omega
    · refine ⟨by omega, by omega, by omega, fun _ => hc⟩
  · rw [if_neg he0]
    have : min (s + mc) tl.length = tl.length := by omega
    omega

/-- A non-matching element survives `dropWhile`. -/
theorem mem_dropWhile_of_not (p : Char → Bool) :
    ∀ (l : List Char) (ch : Char), ch ∈ l → p ch = false →
      ch ∈ l.dropWhile p := by
  intro l
  induction l with
  | nil => intro ch h _; exact absurd h (List.not_mem_nil ch)
  | cons a t ih =>
    intro ch h hp
    by_cases ha : p a
    · rw [List.dropWhile_cons_of_pos ha]
      rcases List.mem_cons.mp h with rfl | h2
      · rw [hp] at ha; exact absurd ha (by simp)
      · exact ih ch h2 hp
    · rw [List.dropWhile_cons_of_neg ha]
      exact h

/-- A list containing a non-whitespace character strips to non-empty. -/
theorem pyStrip_ne_nil (l : List Char) (ch : Char) (h : ch ∈ l)
    (hch : pyWS ch = false) : pyStrip l ≠ [] := by
  unfold pyStrip
  intro hcon
  have h1 : ch ∈ l.dropWhile pyWS := mem_dropWhile_of_not pyWS l ch h hch
  have h2 : ch ∈ (l.dropWhile pyWS).reverse := List.mem_reverse.mpr h1
  have h3 : ch ∈ (l.dropWhile pyWS).reverse.dropWhile pyWS :=
    mem_dropWhile_of_not pyWS _ ch h2 hch
  have h4 : ch ∈ ((l.dropWhile pyWS).reverse.dropWhile pyWS).reverse :=
    List.mem_reverse.mpr h3
  rw [hcon] at h4
  exact absurd h4 (List.not_mem_nil ch)

/-- Stripping never lengthens a list. -/
theorem pyStrip_length_le (l : List Char) : (pyStrip l).length ≤ l.length := by
  unfold pyStrip
  calc ((l.dropWhile pyWS).reverse.dropWhile pyWS).reverse.length
      = ((l.dropWhile pyWS).reverse.dropWhile pyWS).length := List.length_reverse _
    _ ≤ (l.dropWhile pyWS).reverse.length :=
        (List.dropWhile_sublist _).length_le
    _ = (l.dropWhile pyWS).length := List.length_reverse _
    _ ≤ l.length := (List.dropWhile_sublist _).length_le

/-- A slice is no longer than its index range. -/
theorem pySlice_length_le (tl : List Char) (s e : Nat) :
    (pySlice tl s e).length ≤ e - s := by
  unfold pySlice
  calc ((tl.drop s).take (e - s)).length ≤ e - s := by
        rw [List.length_take]
        omega

/-- The character at an in-range index belongs to the slice. -/
theorem mem_pySlice (tl : List Char) (s e k : Nat) (ch : Char)
    (hs : s ≤ k) (hk : k < e) (hget : tl.get? k = some ch) :
    ch ∈ pySlice tl s e := by
  unfold pySlice
  have h1 : (tl.drop s).get? (k - s) = some ch := by
    rw [List.get?_drop]
    rw [show s + (k - s) = k by omega]
    exact hget
  have h2 : ((tl.drop s).take (e - s)).get? (k - s) = some ch := by
    rw [List.get?_take (by omega)]
    exact h1
  exact List.get?_mem h2

/-- Unfolding one live iteration of the chunk loop. -/
theorem chunkLoop_succ (tl : List Char) (mc oc : Nat) (bs : List Nat)
    (f s idx : Nat) (hs : s < tl.length) :
    chunkLoop tl mc oc bs (f + 1) s idx
      = (if tl.length ≤ chunkEnd tl mc bs s - oc
            || tl.length ≤ chunkEnd tl mc bs s then
          (if (pyStrip (pySlice tl s (chunkEnd tl mc bs s))).isEmpty then []
           else [⟨pyStrip (pySlice tl s (chunkEnd tl mc bs s)), s,
                  chunkEnd tl mc bs s, idx⟩])
        else
          (if (pyStrip (pySlice tl s (chunkEnd tl mc bs s))).isEmpty then []
           else [⟨pyStrip (pySlice tl s (chunkEnd tl mc bs s)), s,
                  chunkEnd tl mc bs s, idx⟩])
            ++ chunkLoop tl mc oc bs f (chunkEnd tl mc bs s - oc)
                (if (pyStrip (pySlice tl s (chunkEnd tl mc bs s))).isEmpty
                 then idx else idx + 1)) := by
  rw [chunkLoop]
  rw [if_pos hs]

/-- Every chunk the loop emits has text no longer than `max_chars`. -/
theorem chunkLoop_text_le (tl : List Char) (mc oc : Nat) (bs : List Nat)
    (hmc : 4 ≤ mc) :
    ∀ (fuel s idx : Nat), ∀ c ∈ chunkLoop tl mc oc bs fuel s idx,
      c.text.length ≤ mc := by
  intro fuel
  induction fuel with
  | zero => intro s idx c hc; exact absurd hc (List.not_mem_nil c)
  | succ f ih =>
    intro s idx c hc
    by_cases hs : s < tl.length
    · rw [chunkLoop_succ tl mc oc bs f s idx hs] at hc
      have hE := chunkEnd_facts tl mc bs s hmc hs
      have hone : ∀ idx2, c ∈ (if (pyStrip (pySlice tl s (chunkEnd tl mc bs s))).isEmpty
          then ([] : List Chunk)
          else [⟨pyStrip (pySlice tl s (chunkEnd tl mc bs s)), s,
                 chunkEnd tl mc bs s, idx2⟩]) → c.text.length ≤ mc := by
        intro idx2 hmem
        split at hmem
        · exact absurd hmem (List.not_mem_nil c)
        · rcases List.mem_singleton.mp hmem with rfl
          calc (pyStrip (pySlice tl s (chunkEnd tl mc bs s))).length
              ≤ (pySlice tl s (chunkEnd tl mc bs s)).length := pyStrip_length_le _
            _ ≤ chunkEnd tl mc bs s - s := pySlice_length_le tl s _
            _ ≤ mc := by omega
      split at hc
      · exact hone idx hc
      · rcases List.mem_append.mp hc with hmem | hmem
        · exact hone idx hmem
        · exact ih _ _ c hmem
    · rw [chunkLoop] at hc
      rw [if_neg hs] at hc
      exact absurd hc (List.not_mem_nil c)

/-- Invariants of the chunk loop under valid parameters: emitted chunks
start at or after the cursor, are properly ordered and bounded, carry
non-empty text, and cover every remaining non-whitespace character. -/
theorem chunkLoop_spec (tl : List Char) (mc oc : Nat) (bs : List Nat)
    (hmc : 4 ≤ mc) (hoc : 2 * oc ≤ mc) :
    ∀ (fuel s idx : Nat), s < tl.length → tl.length - s < fuel →
      (∀ c ∈ chunkLoop tl mc oc bs fuel s idx,
          s ≤ c.start_char ∧ c.start_char < c.end_char
            ∧ c.end_char ≤ tl.length ∧ c.text ≠ [])
      ∧ (∀ k ch, s ≤ k → tl.get? k = some ch → pyWS ch = false →
          ∃ c ∈ chunkLoop tl mc oc bs fuel s idx,
            c.start_char ≤ k ∧ k < c.end_char)
      ∧ List.Chain' (fun c1 c2 => c1.start_char < c2.start_char)
          (chunkLoop tl mc oc bs fuel s idx) := by
  intro fuel
  induction fuel with
  | zero => intro s idx hs hf; omega
  | succ f ih =>
    intro s idx hs hf
    rw [chunkLoop_succ tl mc oc bs f s idx hs]
    obtain ⟨hE1, hE2, hE3, hE4⟩ := chunkEnd_facts tl mc bs s hmc hs
    set e := chunkEnd tl mc bs s with he
    set ct := pyStrip (pySlice tl s e) with hct
    have hemit : ∀ (idx2 : Nat) (c : Chunk),
        c ∈ (if ct.isEmpty then ([] : List Chunk) else [⟨ct, s, e, idx2⟩]) →
        c.start_char = s ∧ c.end_char = e ∧ c.text = ct ∧ ct ≠ [] := by
      intro idx2 c hc
      split at hc
      · exact absurd hc (List.not_mem_nil c)
      · rename_i hne
        rcases List.mem_singleton.mp hc with rfl
        refine ⟨rfl, rfl, rfl, fun hnil => hne (by rw [hnil]; rfl)⟩
    have hcov1 : ∀ k ch, s ≤ k → k < e → tl.get? k = some ch →
        pyWS ch = false → ct ≠ [] := by
      intro k ch hk1 hk2 hget hws
      exact pyStrip_ne_nil _ ch (mem_pySlice tl s e k ch hk1 hk2 hget) hws
    have hEmpFalse : ct ≠ [] → ct.isEmpty = false := by
      intro hne
      cases hval : ct with
      | nil => exact absurd hval hne
      | cons x xs => rfl
    by_cases hbreak : (tl.length ≤ e - oc || tl.length ≤ e) = true
    · rw [if_pos hbreak]
      have heL : e = tl.length := by
        simp only [Bool.or_eq_true, decide_eq_true_eq] at hbreak
        omega
      refine ⟨?_, ?_, ?_⟩
      · intro c hc
        obtain ⟨h1, h2, h3, h4⟩ := hemit idx c hc
        refine ⟨by omega, by rw [h1, h2]; exact hE1, by rw [h2]; exact hE2,
          by rw [h3]; exact h4⟩
      · intro k ch hk hget hws
        have hkLen : k < tl.length := by
          by_contra hge
          push_neg at hge
          rw [List.get?_eq_none.mpr hge] at hget
          exact Option.noConfusion hget
        have hct_ne : ct ≠ [] := hcov1 k ch hk (by omega) hget hws
        refine ⟨⟨ct, s, e, idx⟩, ?_, by dsimp; omega, by dsimp; omega⟩
        rw [hEmpFalse hct_ne]
        exact List.mem_singleton.mpr rfl
      · split
        · exact List.chain'_nil
        · exact List.chain'_singleton _
    · rw [if_neg hbreak]
      simp only [Bool.or_eq_true, decide_eq_true_eq, not_or, not_le] at hbreak
      obtain ⟨hb1, hb2⟩ := hbreak
      have hocle : oc ≤ mc / 2 := by omega
      have hhalf := hE4 hb2
      have hprog : s < e - oc := by omega
      have hf2 : tl.length - (e - oc) < f := by omega
      obtain ⟨ihB, ihC, ihChain⟩ :=
        ih (e - oc) (if ct.isEmpty then idx else idx + 1) hb1 hf2
      refine ⟨?_, ?_, ?_⟩
      · intro c hc
        rcases List.mem_append.mp hc with hmem | hmem
        · obtain ⟨h1, h2, h3, h4⟩ := hemit idx c hmem
          refine ⟨by omega, by rw [h1, h2]; exact hE1, by rw [h2]; exact hE2,
            by rw [h3]; exact h4⟩
        · obtain ⟨g1, g2, g3, g4⟩ := ihB c hmem
          exact ⟨by omega, g2, g3, g4⟩
      · intro k ch hk hget hws
        by_cases hke : k < e
        · have hct_ne : ct ≠ [] := hcov1 k ch hk hke hget hws
          refine ⟨⟨ct, s, e, idx⟩, ?_, by dsimp; omega, by dsimp; omega⟩
          apply List.mem_append_left
          rw [hEmpFalse hct_ne]
          exact List.mem_singleton.mpr rfl
        · push_neg at hke
          obtain ⟨c, hcmem, hc1, hc2⟩ := ihC k ch (by omega) hget hws
          exact ⟨c, List.mem_append_right _ hcmem, hc1, hc2⟩
      · by_cases hemp : ct.isEmpty
        · rw [if_pos hemp, List.nil_append]
          exact ihChain
        · rw [if_neg hemp, List.singleton_append]
          rw [List.chain'_cons']
          refine ⟨?_, ihChain⟩
          intro b hb
          have hbmem : b ∈ chunkLoop tl mc oc bs f (e - oc)
              (if ct.isEmpty then idx else idx + 1) :=
            List.mem_of_mem_head? hb
          obtain ⟨g1, _, _, _⟩ := ihB b hbmem
          dsimp
          omega

/-- Python falsy-or defaulting keeps a positive explicit value. -/
theorem orDefault_pos (n d : Nat) (h : 1 ≤ n) : orDefault (some n) d = n := by
  cases n with
  | zero => omega
  | succ m => rfl

/-- `chunk_document` with positive explicit parameters, unfolded. -/
theorem chunk_document_eq (tl : List Char) (maxT ovT : Nat)
    (h1 : 1 ≤ maxT) (h2 : 1 ≤ ovT) :
    chunk_document tl (some maxT) (some ovT)
      = if estimate_tokens tl ≤ maxT then [⟨tl, 0, tl.length, 0⟩]
        else chunkLoop tl (maxT * 4) (ovT * 4) (findBoundaries tl)
          (tl.length + 1) 0 0 := by
  unfold chunk_document
  rw [orDefault_pos maxT 4000 h1, orDefault_pos ovT 200 h2]

/-- C3 counterexample: on `12×'A' ++ 16×' ' ++ 12×'B'` with
`max_tokens=4, overlap_tokens=1`, the middle interval `[12, 28)` strips
to whitespace and is dropped, so the second chunk starts at 24 while the
first ends at 16 — characters 16..23 are covered by no chunk, refuting
gap-freeness; and on the empty text the single returned chunk has empty
text, refuting non-emptiness after trimming. -/
theorem chunk_coverage_counterexample :
    chunk_document c3Text (some 4) (some 1)
      = [⟨List.replicate 12 'A', 0, 16, 0⟩, ⟨List.replicate 12 'B', 24, 40, 1⟩]
    ∧ ((chunk_document c3Text (some 4) (some 1)).get? 0).map Chunk.end_char
        = some 16
    ∧ ((chunk_document c3Text (some 4) (some 1)).get? 1).map Chunk.start_char
        = some 24
    ∧ chunk_document [] none none = [⟨[], 0, 0, 0⟩]
    ∧ pyStrip ([] : List Char) = [] := by
  refine ⟨by decide, by decide, by decide, by decide, rfl⟩

/-- C3 amended: for valid parameters (positive, with
`2*overlap_tokens ≤ max_tokens`), the chunks of `chunk_document` have
strictly increasing `start_char`, well-formed bounds within the text,
every non-whitespace character of the text is covered by some chunk's
`[start_char, end_char)` — gaps can skip only all-whitespace regions —
and in the multi-chunk path every chunk's text is non-empty after
trimming (the single-chunk path returns the text verbatim, which may be
empty). -/
theorem chunk_document_coverage (tl : List Char) (maxT ovT : Nat)
    (h1 : 1 ≤ maxT) (h2 : 1 ≤ ovT) (h3 : 2 * ovT ≤ maxT) :
    List.Chain' (fun c1 c2 => c1.start_char < c2.start_char)
        (chunk_document tl (some maxT) (some ovT))
    ∧ (∀ c ∈ chunk_document tl (some maxT) (some ovT),
        c.start_char ≤ c.end_char ∧ c.end_char ≤ tl.length)
    ∧ (∀ k ch, tl.get? k = some ch → pyWS ch = false →
        ∃ c ∈ chunk_document tl (some maxT) (some ovT),
          c.start_char ≤ k ∧ k < c.end_char)
    ∧ (maxT < estimate_tokens tl →
        ∀ c ∈ chunk_document tl (some maxT) (some ovT), c.text ≠ []) := by
  rw [chunk_document_eq tl maxT ovT h1 h2]
  by_cases hsingle : estimate_tokens tl ≤ maxT
  · rw [if_pos hsingle]
    refine ⟨List.chain'_singleton _, ?_, ?_, ?_⟩
    · intro c hc
      rcases List.mem_singleton.mp hc with rfl
      exact ⟨by dsimp; omega, by dsimp; omega⟩
    · intro k ch hget hws
      have hkLen : k < tl.length := by
        by_contra hge
        push_neg at hge
        rw [List.get?_eq_none.mpr hge] at hget
        exact Option.noConfusion hget
      exact ⟨⟨tl, 0, tl.length, 0⟩, List.mem_singleton.mpr rfl,
        by dsimp; omega, by dsimp; omega⟩
    · intro hcon
      exact absurd hsingle (by omega)
  · rw [if_neg hsingle]
    have hgt : maxT < estimate_tokens tl := by omega
    have hlen : 4 * maxT + 4 ≤ tl.length := by
      unfold estimate_tokens at hgt
      omega
    obtain ⟨hB, hC, hChain⟩ := chunkLoop_spec tl (maxT * 4) (ovT * 4)
      (findBoundaries tl) (by omega) (by omega) (tl.length + 1) 0 0
      (by omega) (by omega)
    refine ⟨hChain, ?_, ?_, ?_⟩
    · intro c hc
      obtain ⟨g1, g2, g3, _⟩ := hB c hc
      exact ⟨by omega, g3⟩
    · intro k ch hget hws
      exact hC k ch (Nat.zero_le k) hget hws
    · intro _ c hc
      exact (hB c hc).2.2.2

/-- C3 witness: the amended theorem at the one-character text — character
0 is covered by a chunk. -/
theorem chunk_document_coverage_witness :
    ∃ c ∈ chunk_document ['x'] (some 2) (some 1),
      c.start_char ≤ 0 ∧ 0 < c.end_char :=
  (chunk_document_coverage ['x'] 2 1 (by decide) (by decide)
    (by decide)).2.2.1 0 'x' (by decide) (by decide)

/-- C9 counterexample: for the six-character text with `max_tokens=1`,
the estimated token count is `6 // 4 = 1` (floor, not ceiling), so a
single full-text chunk is returned even though `ceil(6/4) = 2 > 1` — the
code uses floor division, refuting the ceiling in the claim. -/
theorem chunk_ceiling_counterexample :
    chunk_document c9Text (some 1) (some 1) = [⟨c9Text, 0, 6, 0⟩]
    ∧ estimate_tokens c9Text = 1
    ∧ (c9Text.length + 3) / 4 = 2
    ∧ ¬((c9Text.length + 3) / 4 ≤ 1) := by
  refine ⟨by decide, by decide, by decide, by decide⟩

/-- C9 amended: for valid positive parameters, `chunk_document` returns
the single chunk `{text: T, start_char: 0, end_char: len(T),
chunk_index: 0}` iff the floor estimate `len(T) // 4` is at most
`max_tokens`. -/
theorem chunk_document_single_iff (tl : List Char) (maxT ovT : Nat)
    (h1 : 1 ≤ maxT) (h2 : 1 ≤ ovT) :
    chunk_document tl (some maxT) (some ovT) = [⟨tl, 0, tl.length, 0⟩]
      ↔ estimate_tokens tl ≤ maxT := by
  rw [chunk_document_eq tl maxT ovT h1 h2]
  constructor
  · intro hE
    by_contra hgt
    rw [if_neg hgt] at hE
    have hmem : (⟨tl, 0, tl.length, 0⟩ : Chunk)
        ∈ chunkLoop tl (maxT * 4) (ovT * 4) (findBoundaries tl)
            (tl.length + 1) 0 0 := by
      rw [hE]
      exact List.mem_singleton.mpr rfl
    have htext := chunkLoop_text_le tl (maxT * 4) (ovT * 4)
      (findBoundaries tl) (by omega) (tl.length + 1) 0 0 _ hmem
    dsimp at htext
    have hgt2 : maxT < estimate_tokens tl := by omega
    unfold estimate_tokens at hgt2
    omega
  · intro hle
    rw [if_pos hle]

/-- C9 witness: a two-character text with `max_tokens=1` estimates to
`0 ≤ 1` tokens and yields the single full-text chunk. -/
theorem chunk_document_single_iff_witness :
    chunk_document ['a', 'b'] (some 1) (some 1) = [⟨['a', 'b'], 0, 2, 0⟩] :=
  (chunk_document_single_iff ['a', 'b'] 1 1 (by decide) (by decide)).mpr
    (by decide)

end RFPGen